import Mathlib

/-!
Shallow embedding of the PastTimer/Visual archive feature:
role-based project visibility (`shared/archive/views.py`,
`_get_role_based_archive_queryset`), the aggregation and list API views
(`ProjectAggregationAPIView`, `ProjectListAPIView`, `CustomPagination`),
and the unread-notification context processor
(`system/notifications/context_processors.py`).

Django querysets are modelled as Lean lists of records; ORM `filter`,
`distinct`, `order_by`, `values/annotate(Count)` become list filtering,
order-preserving deduplication, insertion sort, and group counting.
-/

/-- User roles from `system.users.models.User.Role` as referenced by the
archive views: the three privileged roles, the four college-scoped roles,
and the residual roles (guest, client, implementer). -/
inductive Role where
  | UESO | DIRECTOR | VP
  | FACULTY | PROGRAM_HEAD | COORDINATOR | DEAN
  | GUEST | CLIENT | IMPLEMENTER
  deriving DecidableEq, Repr

/-- The requesting actor: `request.user`. `role` is `none` for an
unauthenticated user (`getattr(user, 'role', None)`), `college` is the
actor's affiliation, identified by the college name (`user.college`,
a nullable foreign key). -/
structure Actor where
  role : Option Role
  college : Option String
  deriving DecidableEq, Repr

/-- A calendar date (`start_date`, `estimated_end_date` fields);
`year` is what Django's `ExtractYear` / `__year` lookup reads. -/
structure PDate where
  year : Nat
  month : Nat
  day : Nat
  deriving DecidableEq, Repr

/-- A `shared.projects.models.Project` row, restricted to the fields the
archive views read. Related objects are flattened to the attribute the
views access: `agendaName` is `agenda__name` (`none` when the project has
no associated agenda), `leaderCollege` is `project_leader__college`
identified by its name (`none` when absent). -/
structure Project where
  title : String
  status : String
  project_type : Option String
  start_date : Option PDate
  estimated_end_date : Option PDate
  agendaName : Option String
  leaderCollege : Option String
  leaderGivenName : String
  leaderLastName : String
  primary_location : String
  deriving DecidableEq, Repr

/-- Order-preserving removal of duplicates (Django queryset `.distinct()`:
the first occurrence of each row is kept). `seen` accumulates rows already
emitted. -/
def dedupFirstAux {α : Type} [DecidableEq α] (seen : List α) : List α → List α
  | [] => []
  | x :: xs => if x ∈ seen then dedupFirstAux seen xs else x :: dedupFirstAux (x :: seen) xs

/-- Django queryset `.distinct()` on a list of rows. -/
def dedupFirst {α : Type} [DecidableEq α] (l : List α) : List α :=
  dedupFirstAux [] l

/-- The college disjunct built by `_get_role_based_archive_queryset`:
`Q(status="IN_PROGRESS") & Q(project_leader__college=user.college)` when
the actor has a college, and the empty `Q()` (which Django drops from the
disjunction, never matching on its own) otherwise. -/
def collegeQ (actor : Actor) (p : Project) : Bool :=
  match actor.college with
  | some c => decide (p.status = "IN_PROGRESS") && decide (p.leaderCollege = some c)
  | none => false

/-- The per-project visibility predicate computed by
`_get_role_based_archive_queryset`: match-all for UESO/Director/VP,
completed-or-own-college-in-progress for Faculty/Program Head/
Coordinator/Dean, completed-only for everyone else. -/
def resolveP (actor : Actor) (p : Project) : Bool :=
  if actor.role ∈ [some Role.UESO, some Role.DIRECTOR, some Role.VP] then
    true
  else if actor.role ∈ [some Role.FACULTY, some Role.PROGRAM_HEAD,
      some Role.COORDINATOR, some Role.DEAN] then
    decide (p.status = "COMPLETED") || collegeQ actor p
  else
    decide (p.status = "COMPLETED")

/-- Embedding of `_get_role_based_archive_queryset(request)` over a database `db` of
project rows: `Project.objects.all()` for the privileged roles, the
filtered-and-`distinct()` queryset for the college-scoped roles, and the
completed-only filter for all other users. -/
def get_role_based_archive_queryset (actor : Actor) (db : List Project) : List Project :=
  if actor.role ∈ [some Role.UESO, some Role.DIRECTOR, some Role.VP] then
    db
  else if actor.role ∈ [some Role.FACULTY, some Role.PROGRAM_HEAD,
      some Role.COORDINATOR, some Role.DEAN] then
    dedupFirst (db.filter (fun p => decide (p.status = "COMPLETED") || collegeQ actor p))
  else
    db.filter (fun p => decide (p.status = "COMPLETED"))

theorem mem_dedupFirstAux {α : Type} [DecidableEq α] (l : List α) :
    ∀ (seen : List α) (x : α), x ∈ dedupFirstAux seen l ↔ x ∈ l ∧ x ∉ seen := by
  induction l with
  | nil => intro seen x; simp [dedupFirstAux]
  | cons a t ih =>
    intro seen x
    by_cases ha : a ∈ seen
    · simp only [dedupFirstAux, if_pos ha, ih]
      constructor
      · rintro ⟨hx, hns⟩; exact ⟨List.mem_cons_of_mem _ hx, hns⟩
      · rintro ⟨hx, hns⟩
        rcases List.mem_cons.mp hx with rfl | hx
        · exact absurd ha hns
        · exact ⟨hx, hns⟩
    · simp only [dedupFirstAux, if_neg ha, List.mem_cons, ih]
      constructor
      · rintro (rfl | ⟨hx, hns⟩)
        · exact ⟨Or.inl rfl, ha⟩
        · exact ⟨Or.inr hx, fun hs => hns (Or.inr hs)⟩
      · rintro ⟨rfl | hx, hns⟩
        · exact Or.inl rfl
        · by_cases hxa : x = a
          · exact Or.inl hxa
          · exact Or.inr ⟨hx, fun hs => hs.elim hxa hns⟩

theorem mem_dedupFirst {α : Type} [DecidableEq α] (l : List α) (x : α) :
    x ∈ dedupFirst l ↔ x ∈ l := by
  simp [dedupFirst, mem_dedupFirstAux]

/-- Membership in the role-based queryset is exactly: the row is in the
database and the visibility predicate accepts it. -/
theorem mem_role_based_queryset (actor : Actor) (db : List Project) (p : Project) :
    p ∈ get_role_based_archive_queryset actor db ↔ p ∈ db ∧ resolveP actor p = true := by
  unfold get_role_based_archive_queryset resolveP
  by_cases h1 : actor.role ∈ [some Role.UESO, some Role.DIRECTOR, some Role.VP]
  · simp [h1]
  · by_cases h2 : actor.role ∈ [some Role.FACULTY, some Role.PROGRAM_HEAD,
        some Role.COORDINATOR, some Role.DEAN]
    · simp [h1, h2, mem_dedupFirst, List.mem_filter]
    · simp [h1, h2, List.mem_filter]

/-- C1: an actor whose role is UESO, DIRECTOR, or VP gets the match-all
predicate: every project satisfies it, whatever its status and whatever
the actor's affiliation, and the resolver returns the whole database. -/
theorem c1_privileged_match_all (actor : Actor) (p : Project) (db : List Project)
    (h : actor.role = some Role.UESO ∨ actor.role = some Role.DIRECTOR ∨
      actor.role = some Role.VP) :
    resolveP actor p = true ∧ get_role_based_archive_queryset actor db = db := by
  have hmem : actor.role ∈ [some Role.UESO, some Role.DIRECTOR, some Role.VP] := by
    rcases h with h | h | h <;> simp [h]
  constructor
  · unfold resolveP
    rw [if_pos hmem]
  · unfold get_role_based_archive_queryset
    rw [if_pos hmem]

theorem c1_privileged_match_all_witness :
    resolveP ⟨some Role.DIRECTOR, none⟩
        ⟨"t", "IN_PROGRESS", none, none, none, none, some "B", "g", "l", "loc"⟩ = true ∧
      get_role_based_archive_queryset ⟨some Role.DIRECTOR, none⟩ [] = [] :=
  c1_privileged_match_all ⟨some Role.DIRECTOR, none⟩
    ⟨"t", "IN_PROGRESS", none, none, none, none, some "B", "g", "l", "loc"⟩ []
    (Or.inr (Or.inl rfl))

/-- C2: an actor with a college-scoped role (FACULTY, PROGRAM_HEAD,
COORDINATOR, DEAN) and affiliation `c` sees exactly the COMPLETED projects
plus the IN_PROGRESS projects whose leader's college is `c`; an
IN_PROGRESS project of a different college is not visible. -/
theorem c2_college_scoped (actor : Actor) (p : Project) (c : String)
    (h : actor.role = some Role.FACULTY ∨ actor.role = some Role.PROGRAM_HEAD ∨
      actor.role = some Role.COORDINATOR ∨ actor.role = some Role.DEAN)
    (hc : actor.college = some c) :
    (resolveP actor p = true ↔
      (p.status = "COMPLETED" ∨ (p.status = "IN_PROGRESS" ∧ p.leaderCollege = some c))) ∧
    (p.status = "IN_PROGRESS" → p.leaderCollege ≠ some c → resolveP actor p = false) := by
  have h1 : actor.role ∉ [some Role.UESO, some Role.DIRECTOR, some Role.VP] := by
    rcases h with h | h | h | h <;> simp [h]
  have h2 : actor.role ∈ [some Role.FACULTY, some Role.PROGRAM_HEAD,
      some Role.COORDINATOR, some Role.DEAN] := by
    rcases h with h | h | h | h <;> simp [h]
  unfold resolveP collegeQ
  rw [if_neg h1, if_pos h2, hc]
  constructor
  · simp
  · intro hip hnc
    simp [hip, hnc]

theorem c2_college_scoped_witness :
    ((some Role.FACULTY = some Role.FACULTY ∨ some Role.FACULTY = some Role.PROGRAM_HEAD ∨
        some Role.FACULTY = some Role.COORDINATOR ∨ some Role.FACULTY = some Role.DEAN) ∧
      (resolveP ⟨some Role.FACULTY, some "A"⟩
          ⟨"t", "IN_PROGRESS", none, none, none, none, some "A", "g", "l", "loc"⟩ = true ↔
        ("IN_PROGRESS" = "COMPLETED" ∨
          ("IN_PROGRESS" = "IN_PROGRESS" ∧ (some "A" : Option String) = some "A")))) := by
  refine ⟨Or.inl rfl, ?_⟩
  exact (c2_college_scoped ⟨some Role.FACULTY, some "A"⟩
    ⟨"t", "IN_PROGRESS", none, none, none, none, some "A", "g", "l", "loc"⟩ "A"
    (Or.inl rfl) rfl).1

/-- C3: a college-scoped role with no affiliation, and every residual
actor (guest, client, implementer, unauthenticated), sees exactly the
COMPLETED projects. -/
theorem c3_completed_only (actor : Actor) (p : Project)
    (h : ((actor.role = some Role.FACULTY ∨ actor.role = some Role.PROGRAM_HEAD ∨
        actor.role = some Role.COORDINATOR ∨ actor.role = some Role.DEAN) ∧
        actor.college = none) ∨
      actor.role = none ∨ actor.role = some Role.GUEST ∨
      actor.role = some Role.CLIENT ∨ actor.role = some Role.IMPLEMENTER) :
    (resolveP actor p = true ↔ p.status = "COMPLETED") := by
  unfold resolveP collegeQ
  rcases h with ⟨hrole, hcol⟩ | hres
  · have h1 : actor.role ∉ [some Role.UESO, some Role.DIRECTOR, some Role.VP] := by
      rcases hrole with h | h | h | h <;> simp [h]
    have h2 : actor.role ∈ [some Role.FACULTY, some Role.PROGRAM_HEAD,
        some Role.COORDINATOR, some Role.DEAN] := by
      rcases hrole with h | h | h | h <;> simp [h]
    rw [if_neg h1, if_pos h2, hcol]
    simp
  · have h1 : actor.role ∉ [some Role.UESO, some Role.DIRECTOR, some Role.VP] := by
      rcases hres with h | h | h | h <;> simp [h]
    have h2 : actor.role ∉ [some Role.FACULTY, some Role.PROGRAM_HEAD,
        some Role.COORDINATOR, some Role.DEAN] := by
      rcases hres with h | h | h | h <;> simp [h]
    rw [if_neg h1, if_neg h2]
    simp

theorem c3_completed_only_witness :
    resolveP ⟨some Role.GUEST, some "A"⟩
        ⟨"t", "IN_PROGRESS", none, none, none, none, some "A", "g", "l", "loc"⟩ = true ↔
      ("IN_PROGRESS" : String) = "COMPLETED" :=
  c3_completed_only ⟨some Role.GUEST, some "A"⟩
    ⟨"t", "IN_PROGRESS", none, none, none, none, some "A", "g", "l", "loc"⟩
    (Or.inr (Or.inr (Or.inl rfl)))

/-! ## `project_type` display formatting and filter parsing

`ProjectAggregationAPIView.get` formats a project-type label with
`label.replace('_', ' ').title()` and `ProjectListAPIView.get_queryset`
parses a display value back with `filter_value.replace(' ', '_').upper()`.
Python's `str.title` and `str.upper` are embedded on the ASCII letters,
the alphabet of the enumerated project-type values. -/

/-- The ASCII uppercase letters. -/
def upperChars : List Char :=
  ['A', 'B', 'C', 'D', 'E', 'F', 'G', 'H', 'I', 'J', 'K', 'L', 'M',
   'N', 'O', 'P', 'Q', 'R', 'S', 'T', 'U', 'V', 'W', 'X', 'Y', 'Z']

/-- The lowercase counterparts, in the same order. -/
def lowerChars : List Char :=
  ['a', 'b', 'c', 'd', 'e', 'f', 'g', 'h', 'i', 'j', 'k', 'l', 'm',
   'n', 'o', 'p', 'q', 'r', 's', 't', 'u', 'v', 'w', 'x', 'y', 'z']

/-- Python `str.upper` on one ASCII character. -/
def pyUpperChar (c : Char) : Char :=
  match c with
  | 'a' => 'A' | 'b' => 'B' | 'c' => 'C' | 'd' => 'D' | 'e' => 'E'
  | 'f' => 'F' | 'g' => 'G' | 'h' => 'H' | 'i' => 'I' | 'j' => 'J'
  | 'k' => 'K' | 'l' => 'L' | 'm' => 'M' | 'n' => 'N' | 'o' => 'O'
  | 'p' => 'P' | 'q' => 'Q' | 'r' => 'R' | 's' => 'S' | 't' => 'T'
  | 'u' => 'U' | 'v' => 'V' | 'w' => 'W' | 'x' => 'X' | 'y' => 'Y'
  | 'z' => 'Z' | other => other

/-- Python `str.lower` on one ASCII character. -/
def pyLowerChar (c : Char) : Char :=
  match c with
  | 'A' => 'a' | 'B' => 'b' | 'C' => 'c' | 'D' => 'd' | 'E' => 'e'
  | 'F' => 'f' | 'G' => 'g' | 'H' => 'h' | 'I' => 'i' | 'J' => 'j'
  | 'K' => 'k' | 'L' => 'l' | 'M' => 'm' | 'N' => 'n' | 'O' => 'o'
  | 'P' => 'p' | 'Q' => 'q' | 'R' => 'r' | 'S' => 's' | 'T' => 't'
  | 'U' => 'u' | 'V' => 'v' | 'W' => 'w' | 'X' => 'x' | 'Y' => 'y'
  | 'Z' => 'z' | other => other

/-- An ASCII letter (the cased characters relevant to `str.title`'s
word-boundary rule on this alphabet). -/
def pyIsAlphaChar (c : Char) : Bool :=
  decide (c ∈ upperChars) || decide (c ∈ lowerChars)

/-- Underscore-to-space step of the display formatting: `replace('_', ' ')`. -/
def replUnderscoreSpace (c : Char) : Char :=
  if c = '_' then ' ' else c

/-- Space-to-underscore step of the filter parsing: `replace(' ', '_')`. -/
def replSpaceUnderscore (c : Char) : Char :=
  if c = ' ' then '_' else c

/-- Python `str.title` over a character list: a letter is uppercased when
the previous character is not a letter and lowercased otherwise;
non-letters pass through and reset the word boundary. `prevAlpha` records
whether the previous character was a letter. -/
def pyTitleAux (prevAlpha : Bool) : List Char → List Char
  | [] => []
  | c :: cs =>
    if pyIsAlphaChar c then
      (if prevAlpha then pyLowerChar c else pyUpperChar c) :: pyTitleAux true cs
    else
      c :: pyTitleAux false cs

/-- The aggregation view's display formatting of a project-type value:
`label.replace('_', ' ').title()`. -/
def formatProjectType (s : String) : String :=
  ⟨pyTitleAux false (s.data.map replUnderscoreSpace)⟩

/-- The list view's parsing of a project-type filter value back to the
canonical enumerated form: `filter_value.replace(' ', '_').upper()`. -/
def parseProjectType (s : String) : String :=
  ⟨(s.data.map replSpaceUnderscore).map pyUpperChar⟩

/-- Modelled from the spec: the enumerated `project_type` values live in
`shared.projects.models.Project`, which is not part of this source slice;
the spec states they are "normalized as UPPER_SNAKE internally"
(e.g. `RESEARCH_BASED`). `atWordStart` is true when the next character
must begin a word: a valid value is one or more words of uppercase ASCII
letters separated by single underscores. -/
def upperSnakeAux : Bool → List Char → Bool
  | true, [] => false
  | false, [] => true
  | true, c :: cs => decide (c ∈ upperChars) && upperSnakeAux false cs
  | false, c :: cs =>
    if c = '_' then upperSnakeAux true cs
    else decide (c ∈ upperChars) && upperSnakeAux false cs

/-- Modelled from the spec: a valid enumerated `project_type` value is a
nonempty UPPER_SNAKE identifier over the ASCII alphabet. -/
def isUpperSnake (s : String) : Bool :=
  upperSnakeAux true s.data

theorem upperChar_facts (c : Char) (h : c ∈ upperChars) :
    pyIsAlphaChar c = true ∧ replUnderscoreSpace c = c ∧
    pyUpperChar (replSpaceUnderscore (pyUpperChar c)) = c ∧
    pyUpperChar (replSpaceUnderscore (pyLowerChar c)) = c := by
  fin_cases h <;> exact ⟨rfl, rfl, rfl, rfl⟩

/-- Parsing undoes formatting, one word-structure step at a time. -/
theorem parse_format_aux (l : List Char) :
    ∀ b : Bool, upperSnakeAux b l = true →
      ((pyTitleAux (!b) (l.map replUnderscoreSpace)).map replSpaceUnderscore).map
        pyUpperChar = l := by
  induction l with
  | nil =>
    intro b hb
    cases b
    · simp [pyTitleAux]
    · simp [upperSnakeAux] at hb
  | cons c cs ih =>
    intro b hb
    cases b
    · by_cases hc : c = '_'
      · subst hc
        simp only [upperSnakeAux, if_pos rfl] at hb
        have hrec := ih true hb
        simp only [List.map_map, Bool.not_true] at hrec
        have h1 : replUnderscoreSpace '_' = ' ' := rfl
        have h2 : pyIsAlphaChar ' ' = false := by decide
        have h3 : replSpaceUnderscore ' ' = '_' := rfl
        have h4 : pyUpperChar '_' = '_' := rfl
        simp [pyTitleAux, h1, h2, h3, h4, hrec]
      · simp only [upperSnakeAux, if_neg hc, Bool.and_eq_true,
          decide_eq_true_eq] at hb
        obtain ⟨hcu, hrest⟩ := hb
        obtain ⟨halpha, hrepl, _, hlow⟩ := upperChar_facts c hcu
        have hrec := ih false hrest
        simp only [List.map_map, Bool.not_false] at hrec
        simp [pyTitleAux, hrepl, halpha, hlow, hrec]
    · simp only [upperSnakeAux, Bool.and_eq_true, decide_eq_true_eq] at hb
      obtain ⟨hcu, hrest⟩ := hb
      obtain ⟨halpha, hrepl, hupper, _⟩ := upperChar_facts c hcu
      have hrec := ih false hrest
      simp only [List.map_map, Bool.not_false] at hrec
      simp [pyTitleAux, hrepl, halpha, hupper, hrec]

/-- C4: display formatting (underscores to spaces, then title case) and
filter parsing (spaces to underscores, then upper case) round-trip on
every valid enumerated `project_type` value; in particular
`RESEARCH_BASED` formats to "Research Based" and "Research Based" parses
back to `RESEARCH_BASED`. -/
theorem c4_project_type_roundtrip :
    (∀ v : String, isUpperSnake v = true →
      parseProjectType (formatProjectType v) = v) ∧
    formatProjectType "RESEARCH_BASED" = "Research Based" ∧
    parseProjectType "Research Based" = "RESEARCH_BASED" := by
  refine ⟨?_, by decide, by decide⟩
  intro v hv
  have h := parse_format_aux v.data true hv
  cases v with
  | mk data => exact congrArg String.mk h

theorem c4_project_type_roundtrip_witness :
    isUpperSnake "RESEARCH_BASED" = true ∧
      parseProjectType (formatProjectType "RESEARCH_BASED") = "RESEARCH_BASED" :=
  ⟨by decide, c4_project_type_roundtrip.1 "RESEARCH_BASED" (by decide)⟩

/-! ## Sorting, grouping and counting (the ORM pipeline
`values(field).annotate(count=Count('id')).order_by('-field')`) -/

/-- Insertion into a list sorted by the boolean relation `le`. -/
def insertSorted {α : Type} (le : α → α → Bool) (x : α) : List α → List α
  | [] => [x]
  | y :: ys => if le x y then x :: y :: ys else y :: insertSorted le x ys

/-- Insertion sort by the boolean relation `le` (the ORM `order_by`). -/
def sortByLe {α : Type} (le : α → α → Bool) (l : List α) : List α :=
  l.foldr (insertSorted le) []

theorem perm_insertSorted {α : Type} (le : α → α → Bool) (x : α) (l : List α) :
    List.Perm (insertSorted le x l) (x :: l) := by
  induction l with
  | nil => exact List.Perm.refl _
  | cons y ys ih =>
    by_cases hxy : le x y = true
    · simp [insertSorted, hxy]
    · simp only [insertSorted, if_neg hxy]
      exact (ih.cons y).trans (List.Perm.swap x y ys)

theorem perm_sortByLe {α : Type} (le : α → α → Bool) (l : List α) :
    List.Perm (sortByLe le l) l := by
  induction l with
  | nil => exact List.Perm.refl _
  | cons a t ih =>
    exact (perm_insertSorted le a (sortByLe le t)).trans (ih.cons a)

theorem chain'_insertSorted {α : Type} (le : α → α → Bool)
    (htot : ∀ a b, le a b = true ∨ le b a = true) (x : α) (l : List α)
    (h : l.Chain' (fun a b => le a b = true)) :
    (insertSorted le x l).Chain' (fun a b => le a b = true) := by
  induction l with
  | nil => simp [insertSorted]
  | cons y ys ih =>
    by_cases hxy : le x y = true
    · simp only [insertSorted, if_pos hxy]
      exact h.cons hxy
    · simp only [insertSorted, if_neg hxy]
      have hyx : le y x = true := (htot x y).resolve_left hxy
      have hins := ih h.tail
      rcases ys with _ | ⟨z, zs⟩
      · simp [insertSorted, hyx]
      · by_cases hxz : le x z = true
        · simp only [insertSorted, if_pos hxz] at hins ⊢
          exact hins.cons hyx
        · simp only [insertSorted, if_neg hxz] at hins ⊢
          have hyz : le y z = true := (List.chain'_cons.mp h).1
          exact hins.cons hyz

theorem chain'_sortByLe {α : Type} (le : α → α → Bool)
    (htot : ∀ a b, le a b = true ∨ le b a = true) (l : List α) :
    (sortByLe le l).Chain' (fun a b => le a b = true) := by
  induction l with
  | nil => simp [sortByLe]
  | cons a t ih => exact chain'_insertSorted le htot a (sortByLe le t) ih

/-- Decidable `≤` on `Nat` as a boolean relation. -/
def natLeB (a b : Nat) : Bool := decide (a ≤ b)

/-- Lexicographic `≤` on character lists, comparing code points. -/
def charsLe : List Char → List Char → Bool
  | [], _ => true
  | _ :: _, [] => false
  | a :: as, b :: bs =>
    if a.toNat = b.toNat then charsLe as bs else decide (a.toNat < b.toNat)

/-- Lexicographic `≤` on `String` as a boolean relation (the database
collation order on text keys). -/
def strLeB (a b : String) : Bool := charsLe a.data b.data

/-- Lift an order to `Option`, with `none` (SQL NULL) as the least
element, matching NULLS-last ordering under `order_by('-field')`. -/
def optLe {α : Type} (le : α → α → Bool) : Option α → Option α → Bool
  | none, _ => true
  | some _, none => false
  | some a, some b => le a b

theorem natLeB_total : ∀ a b, natLeB a b = true ∨ natLeB b a = true := by
  intro a b
  simp only [natLeB, decide_eq_true_eq]
  omega

theorem charsLe_total : ∀ as bs, charsLe as bs = true ∨ charsLe bs as = true := by
  intro as
  induction as with
  | nil => intro bs; exact Or.inl rfl
  | cons a at' ih =>
    intro bs
    cases bs with
    | nil => exact Or.inr rfl
    | cons b bt =>
      by_cases h : a.toNat = b.toNat
      · simp only [charsLe, if_pos h, if_pos h.symm]
        exact ih bt
      · have h' : ¬b.toNat = a.toNat := fun hba => h hba.symm
        simp only [charsLe, if_neg h, if_neg h', decide_eq_true_eq]
        omega

theorem strLeB_total : ∀ a b, strLeB a b = true ∨ strLeB b a = true := by
  intro a b
  exact charsLe_total a.data b.data

theorem optLe_total {α : Type} (le : α → α → Bool)
    (h : ∀ a b, le a b = true ∨ le b a = true) :
    ∀ a b, optLe le a b = true ∨ optLe le b a = true := by
  intro a b
  cases a with
  | none => exact Or.inl rfl
  | some x =>
    cases b with
    | none => exact Or.inr rfl
    | some y => exact h x y

/-- The grouping-and-counting step of the aggregation endpoint:
distinct keys of the visible rows, sorted by key descending, each paired
with the number of rows carrying that key
(`values(field).annotate(count=Count('id')).order_by('-field')`). -/
def aggregateBy {κ : Type} [DecidableEq κ] (le : κ → κ → Bool)
    (key : Project → κ) (rows : List Project) : List (κ × Nat) :=
  (sortByLe (fun a b => le b a) (rows.map key).dedup).map
    (fun k => (k, rows.countP (fun p => decide (key p = k))))

/-- What it means for `r` to correctly aggregate `rows` under `key`:
no grouping key repeats, the keys are exactly the keys occurring among
the rows, each count is the number of rows with that key, and consecutive
entries descend in the key order. -/
def GoodAgg {κ : Type} [DecidableEq κ] (le : κ → κ → Bool)
    (key : Project → κ) (rows : List Project) (r : List (κ × Nat)) : Prop :=
  (r.map Prod.fst).Nodup ∧
  (∀ k, k ∈ r.map Prod.fst ↔ k ∈ rows.map key) ∧
  (∀ x ∈ r, x.2 = rows.countP (fun p => decide (key p = x.1))) ∧
  r.Chain' (fun a b => le b.1 a.1 = true)

theorem aggregateBy_good {κ : Type} [DecidableEq κ] (le : κ → κ → Bool)
    (htot : ∀ a b, le a b = true ∨ le b a = true)
    (key : Project → κ) (rows : List Project) :
    GoodAgg le key rows (aggregateBy le key rows) := by
  have hperm : List.Perm (sortByLe (fun a b => le b a) (rows.map key).dedup)
      (rows.map key).dedup := perm_sortByLe _ _
  have hfst : (aggregateBy le key rows).map Prod.fst =
      sortByLe (fun a b => le b a) (rows.map key).dedup := by
    have hcomp : (Prod.fst ∘ fun k : κ =>
        (k, rows.countP (fun p => decide (key p = k)))) = id := rfl
    simp only [aggregateBy, List.map_map, hcomp, List.map_id]
  refine ⟨?_, ?_, ?_, ?_⟩
  · rw [hfst]
    exact hperm.nodup_iff.mpr (List.nodup_dedup _)
  · intro k
    rw [hfst, hperm.mem_iff, List.mem_dedup]
  · intro x hx
    obtain ⟨k, _, rfl⟩ := List.mem_map.mp hx
    rfl
  · unfold aggregateBy
    refine (List.chain'_map _).mpr ?_
    exact chain'_sortByLe (fun a b => le b a) (fun a b => htot b a)
      (rows.map key).dedup

/-! ## Aggregation endpoint (`ProjectAggregationAPIView.get`) -/

/-- The HTTP outcome of the aggregation view: a 200 JSON array of
`{label, count}` objects, or the 400 response produced when the
`ValueError("Invalid category specified.")` is caught. -/
inductive AggResponse where
  | ok (body : List (String × Nat))
  | clientError (detail : String)
  deriving DecidableEq, Repr

/-- Grouping key `ExtractYear('start_date')`: the annotated `start_year` value. -/
def startYearKey (p : Project) : Option Nat := p.start_date.map PDate.year

/-- Grouping key `ExtractYear('estimated_end_date')`: the annotated `end_year` value. -/
def endYearKey (p : Project) : Option Nat := p.estimated_end_date.map PDate.year

/-- Label formatting for a year group: `label = item['label']`, replaced
by `'N/A'` when falsy (Python `if not label:` — `None`, and also the
integer 0). -/
def formatNatLabel : Option Nat → String
  | none => "N/A"
  | some 0 => "N/A"
  | some n => toString n

/-- Label formatting for a name group: `None` and the empty string are
falsy in Python, so both become `'N/A'`. -/
def formatStrLabel : Option String → String
  | none => "N/A"
  | some s => if s = "" then "N/A" else s

/-- Label formatting for a `project_type` group: the generic falsy
replacement, then `label.replace('_', ' ').title()` on every label other
than the `'N/A'` sentinel. -/
def projectTypeLabel (o : Option String) : String :=
  let l := formatStrLabel o
  if l = "N/A" then l else formatProjectType l

/-- The category names accepted by the aggregation view (`field_map`
keys); the list view recognises the same set. -/
def validCategories : List String :=
  ["start_year", "estimated_end_date", "agenda", "project_type", "college"]

/-- Embedding of `ProjectAggregationAPIView.get(request, category)`: role-filter the
database, group and count by the mapped field, sort by the field
descending, format the labels; an unknown category raises the
`ValueError` that the handler converts to a 400 response. -/
def projectAggregationGet (actor : Actor) (category : String)
    (db : List Project) : AggResponse :=
  let base := get_role_based_archive_queryset actor db
  if category = "start_year" then
    .ok ((aggregateBy (optLe natLeB) startYearKey base).map
      (fun x => (formatNatLabel x.1, x.2)))
  else if category = "estimated_end_date" then
    .ok ((aggregateBy (optLe natLeB) endYearKey base).map
      (fun x => (formatNatLabel x.1, x.2)))
  else if category = "agenda" then
    .ok ((aggregateBy (optLe strLeB) Project.agendaName base).map
      (fun x => (formatStrLabel x.1, x.2)))
  else if category = "project_type" then
    .ok ((aggregateBy (optLe strLeB) Project.project_type base).map
      (fun x => (projectTypeLabel x.1, x.2)))
  else if category = "college" then
    .ok ((aggregateBy (optLe strLeB) Project.leaderCollege base).map
      (fun x => (formatStrLabel x.1, x.2)))
  else
    .clientError "Invalid category specified."

/-- C5: aggregation with a category outside the recognised set answers
with the 400-class invalid-category response carrying the offending
detail, and never does so for a recognised category. -/
theorem c5_invalid_category (actor : Actor) (category : String) (db : List Project) :
    (category ∉ validCategories →
      projectAggregationGet actor category db =
        .clientError "Invalid category specified.") ∧
    (category ∈ validCategories →
      ∃ body, projectAggregationGet actor category db = .ok body) := by
  constructor
  · intro h
    simp only [validCategories, List.mem_cons, List.not_mem_nil, or_false,
      not_or] at h
    obtain ⟨h1, h2, h3, h4, h5⟩ := h
    simp [projectAggregationGet, h1, h2, h3, h4, h5]
  · intro h
    fin_cases h
    · exact ⟨_, rfl⟩
    · exact ⟨_, rfl⟩
    · exact ⟨_, rfl⟩
    · exact ⟨_, rfl⟩
    · exact ⟨_, rfl⟩

theorem c5_invalid_category_witness :
    projectAggregationGet ⟨none, none⟩ "bogus" [] =
        .clientError "Invalid category specified." ∧
      ∃ body, projectAggregationGet ⟨none, none⟩ "agenda" [] = .ok body :=
  ⟨(c5_invalid_category ⟨none, none⟩ "bogus" []).1 (by decide),
   (c5_invalid_category ⟨none, none⟩ "agenda" []).2 (by decide)⟩

/-- C6: for every valid category the aggregation response is the
label-formatted image of a grouping `r` of the role-visible projects:
one entry per distinct grouping key, counts equal to group sizes, and
entries sorted by the underlying key in descending order; the whole
sequence is returned (no pagination). -/
theorem c6_aggregation_grouped_sorted (actor : Actor) (db : List Project) :
    (∃ r, projectAggregationGet actor "start_year" db =
        .ok (r.map (fun x => (formatNatLabel x.1, x.2))) ∧
      GoodAgg (optLe natLeB) startYearKey (get_role_based_archive_queryset actor db) r) ∧
    (∃ r, projectAggregationGet actor "estimated_end_date" db =
        .ok (r.map (fun x => (formatNatLabel x.1, x.2))) ∧
      GoodAgg (optLe natLeB) endYearKey (get_role_based_archive_queryset actor db) r) ∧
    (∃ r, projectAggregationGet actor "agenda" db =
        .ok (r.map (fun x => (formatStrLabel x.1, x.2))) ∧
      GoodAgg (optLe strLeB) Project.agendaName
        (get_role_based_archive_queryset actor db) r) ∧
    (∃ r, projectAggregationGet actor "project_type" db =
        .ok (r.map (fun x => (projectTypeLabel x.1, x.2))) ∧
      GoodAgg (optLe strLeB) Project.project_type
        (get_role_based_archive_queryset actor db) r) ∧
    (∃ r, projectAggregationGet actor "college" db =
        .ok (r.map (fun x => (formatStrLabel x.1, x.2))) ∧
      GoodAgg (optLe strLeB) Project.leaderCollege
        (get_role_based_archive_queryset actor db) r) := by
  refine ⟨⟨_, rfl, ?_⟩, ⟨_, rfl, ?_⟩, ⟨_, rfl, ?_⟩, ⟨_, rfl, ?_⟩, ⟨_, rfl, ?_⟩⟩
  · exact aggregateBy_good _ (optLe_total natLeB natLeB_total) _ _
  · exact aggregateBy_good _ (optLe_total natLeB natLeB_total) _ _
  · exact aggregateBy_good _ (optLe_total strLeB strLeB_total) _ _
  · exact aggregateBy_good _ (optLe_total strLeB strLeB_total) _ _
  · exact aggregateBy_good _ (optLe_total strLeB strLeB_total) _ _

/-! ## List endpoint (`ProjectListAPIView.get_queryset`) -/

/-- Python `str.lower` over a string (ASCII fragment), as used by the
case-insensitive `icontains` lookups. -/
def pyLowerStr (s : String) : String := ⟨s.data.map pyLowerChar⟩

/-- Whether `needle` is a leading segment of `hay` (character lists). -/
def charsStartWith : List Char → List Char → Bool
  | [], _ => true
  | _ :: _, [] => false
  | c :: cs, h :: hs => decide (c = h) && charsStartWith cs hs

/-- Whether `needle` occurs contiguously inside `hay` (character lists). -/
def charsContain (needle : List Char) : List Char → Bool
  | [] => charsStartWith needle []
  | h :: hs => charsStartWith needle (h :: hs) || charsContain needle hs

/-- Django `field__icontains=needle`: case-insensitive substring match. -/
def icontains (needle hay : String) : Bool :=
  charsContain (pyLowerStr needle).data (pyLowerStr hay).data

/-- The free-text search block: skipped when `search` is absent or empty
(Python truthiness of `search_query`), otherwise an OR of `icontains`
lookups over title, the leader's given and last names, and the primary
location. -/
def applySearch (search : Option String) (qs : List Project) : List Project :=
  match search with
  | none => qs
  | some s =>
    if s = "" then qs
    else
      qs.filter (fun p =>
        icontains s p.title || icontains s p.leaderGivenName ||
        icontains s p.leaderLastName || icontains s p.primary_location)

/-- Calendar order on dates as a boolean relation. -/
def dateLeB (a b : PDate) : Bool :=
  decide (a.year < b.year) ||
    (decide (a.year = b.year) &&
      (decide (a.month < b.month) ||
        (decide (a.month = b.month) && decide (a.day ≤ b.day))))

/-- Row order for the field selected through `sort_field_map`:
`start_date` and `end_date` (the `estimated_end_date` field) order by the
date, anything else — including an unrecognised `sort_by` — falls back to
`title`. -/
def fieldLeB (sortBy : String) (a b : Project) : Bool :=
  if sortBy = "start_date" then optLe dateLeB a.start_date b.start_date
  else if sortBy = "end_date" then
    optLe dateLeB a.estimated_end_date b.estimated_end_date
  else strLeB a.title b.title

/-- The `order_by` step: ascending by the selected field, reversed when
`order == 'desc'` (the `-` prefixed field name). -/
def applySort (sortBy order : String) (qs : List Project) : List Project :=
  if order = "desc" then sortByLe (fun a b => fieldLeB sortBy b a) qs
  else sortByLe (fieldLeB sortBy) qs

/-- The category-filter block of `get_queryset`: applied only when both
URL kwargs are present; `filter_value == 'N/A'` becomes an is-null filter
on the underlying field, any other value an equality filter (with the
`project_type` display value parsed back to canonical form); a category
outside the recognised set leaves the queryset untouched. The branch
order follows the source. -/
def applyCategoryFilter (category filterValue : Option String)
    (qs : List Project) : List Project :=
  match category, filterValue with
  | some cat, some fv =>
    if fv = "N/A" then
      if cat = "agenda" then qs.filter (fun p => decide (p.agendaName = none))
      else if cat = "college" then qs.filter (fun p => decide (p.leaderCollege = none))
      else if cat = "start_year" then qs.filter (fun p => decide (p.start_date = none))
      else if cat = "estimated_end_date" then
        qs.filter (fun p => decide (p.estimated_end_date = none))
      else if cat = "project_type" then
        qs.filter (fun p => decide (p.project_type = none))
      else qs
    else
      if cat = "start_year" then
        qs.filter (fun p => decide (p.start_date.map (fun d => toString d.year) = some fv))
      else if cat = "estimated_end_date" then
        qs.filter (fun p =>
          decide (p.estimated_end_date.map (fun d => toString d.year) = some fv))
      else if cat = "agenda" then qs.filter (fun p => decide (p.agendaName = some fv))
      else if cat = "project_type" then
        qs.filter (fun p => decide (p.project_type = some (parseProjectType fv)))
      else if cat = "college" then
        qs.filter (fun p => decide (p.leaderCollege = some fv))
      else qs
  | _, _ => qs

/-- Embedding of `ProjectListAPIView.get_queryset`: role-based base queryset, category
filter from the URL kwargs, free-text search, sort, then `.distinct()`. -/
def getQueryset (actor : Actor) (category filterValue search : Option String)
    (sortBy order : String) (db : List Project) : List Project :=
  dedupFirst
    (applySort sortBy order
      (applySearch search
        (applyCategoryFilter category filterValue
          (get_role_based_archive_queryset actor db))))

theorem mem_applySort (sortBy order : String) (qs : List Project) (p : Project) :
    p ∈ applySort sortBy order qs ↔ p ∈ qs := by
  unfold applySort
  by_cases h : order = "desc" <;>
    simp [h, (perm_sortByLe _ _).mem_iff]

/-- C7: listing with category `agenda` and filter value `'N/A'` returns
exactly the role-visible projects with no associated agenda, for every
actor and every sort choice. -/
theorem c7_agenda_na_filter (actor : Actor) (db : List Project)
    (sortBy order : String) (p : Project) :
    p ∈ getQueryset actor (some "agenda") (some "N/A") none sortBy order db ↔
      p ∈ db ∧ resolveP actor p = true ∧ p.agendaName = none := by
  have hcf : applyCategoryFilter (some "agenda") (some "N/A")
      (get_role_based_archive_queryset actor db) =
      (get_role_based_archive_queryset actor db).filter
        (fun p => decide (p.agendaName = none)) := rfl
  have hsearch : ∀ qs : List Project, applySearch none qs = qs := fun _ => rfl
  unfold getQueryset
  rw [mem_dedupFirst, mem_applySort, hsearch, hcf, List.mem_filter,
    mem_role_based_queryset]
  simp [and_assoc]

/-- C10: the list endpoint applies no category filter — and raises no
invalid-category error — when the category kwarg is missing, the filter
value kwarg is missing, or the category is outside the recognised set:
the result is the unfiltered (searched, sorted, deduplicated) role-based
queryset. -/
theorem c10_list_unknown_category (actor : Actor) (db : List Project)
    (category filterValue search : Option String) (sortBy order : String)
    (h : category = none ∨ filterValue = none ∨
      ∃ c, category = some c ∧ c ∉ validCategories) :
    getQueryset actor category filterValue search sortBy order db =
      getQueryset actor none none search sortBy order db := by
  suffices hcf : applyCategoryFilter category filterValue
      (get_role_based_archive_queryset actor db) =
      applyCategoryFilter none none (get_role_based_archive_queryset actor db) by
    unfold getQueryset
    rw [hcf]
  rcases h with rfl | rfl | ⟨c, rfl, hc⟩
  · cases filterValue <;> rfl
  · cases category <;> rfl
  · simp only [validCategories, List.mem_cons, List.not_mem_nil, or_false,
      not_or] at hc
    obtain ⟨h1, h2, h3, h4, h5⟩ := hc
    cases filterValue with
    | none => rfl
    | some fv =>
      by_cases hna : fv = "N/A" <;>
        simp [applyCategoryFilter, hna, h1, h2, h3, h4, h5]

theorem c10_list_unknown_category_witness :
    getQueryset ⟨none, none⟩ (some "bogus") (some "X") none "title" "asc" [] =
      getQueryset ⟨none, none⟩ none none none "title" "asc" [] :=
  c10_list_unknown_category ⟨none, none⟩ [] (some "bogus") (some "X") none
    "title" "asc" (Or.inr (Or.inr ⟨"bogus", rfl, by decide⟩))

/-! ## Pagination (`CustomPagination`) -/

/-- Constant `CustomPagination.page_size`: the default page size. -/
def defaultPageSize : Nat := 10

/-- Constant `CustomPagination.max_page_size`: the hard cap on a requested size. -/
def maxPageSize : Nat := 100

/-- The effective page size: the framework reads the `page_size` query
parameter (exposed via `page_size_query_param`), accepts a positive
integer capped at `max_page_size`, and falls back to the class default
when the parameter is absent or not a positive integer. -/
def getPageSize (requested : Option Nat) : Nat :=
  match requested with
  | some n => if 0 < n then min n maxPageSize else defaultPageSize
  | none => defaultPageSize

/-- One page of a paginated list: page numbers are 1-based. -/
def paginatePage {α : Type} (pageSize page : Nat) (l : List α) : List α :=
  (l.drop ((page - 1) * pageSize)).take pageSize

/-- C8: the page size defaults to 10 when none is requested, every
effective page size is capped at 100, and in particular a request with
`page_size=1000` yields pages of at most 100 projects. -/
theorem c8_page_size_cap :
    getPageSize none = 10 ∧
    (∀ requested, getPageSize requested ≤ 100) ∧
    (∀ (l : List Project) (page : Nat),
      (paginatePage (getPageSize (some 1000)) page l).length ≤ 100) := by
  refine ⟨rfl, ?_, ?_⟩
  · intro requested
    cases requested with
    | none => decide
    | some n =>
      simp only [getPageSize, maxPageSize, defaultPageSize]
      split <;> omega
  · intro l page
    have hsz : getPageSize (some 1000) = 100 := rfl
    rw [hsz]
    simp only [paginatePage, List.length_take]
    omega

/-! ## Unread-notification count
(`system/notifications/context_processors.py`) -/

/-- A `Notification` row as the context processor reads it: its
recipient (a user id) and its read flag. -/
structure Notification where
  recipient : Nat
  is_read : Bool
  deriving DecidableEq, Repr

/-- Embedding of `unread_notifications(request)`: 0 for an unauthenticated user,
otherwise the `count()` of the user's notifications filtered on
`recipient=request.user, is_read=False`. -/
def unread_notifications (isAuthenticated : Bool) (userId : Nat)
    (db : List Notification) : Nat :=
  if isAuthenticated then
    (db.filter (fun n => decide (n.recipient = userId) && !n.is_read)).length
  else 0

/-- C9: the unread count is 0 for every unauthenticated actor — and does
not depend on the notification store at all in that case — while for an
authenticated actor it is the number of notification rows addressed to
them with read-state false; being a `Nat`, it is never negative. -/
theorem c9_unread_count :
    (∀ (userId : Nat) (db : List Notification),
      unread_notifications false userId db = 0) ∧
    (∀ (userId : Nat) (db db' : List Notification),
      unread_notifications false userId db = unread_notifications false userId db') ∧
    (∀ (userId : Nat) (db : List Notification),
      unread_notifications true userId db =
        db.countP (fun n => decide (n.recipient = userId) && !n.is_read)) ∧
    (∀ (b : Bool) (userId : Nat) (db : List Notification),
      0 ≤ unread_notifications b userId db) := by
  refine ⟨fun _ _ => rfl, fun _ _ _ => rfl, ?_, fun _ _ _ => Nat.zero_le _⟩
  intro userId db
  simp [unread_notifications, List.countP_eq_length_filter]
